import Mathlib

/-!
Shallow embedding of the Wild::CommandLine argument-parsing library
(src/CommandLine.h) and proofs about its specification.

Modelling conventions:
* `std::string` is Lean `String`; `substr` arithmetic is expressed on
  `String.data` (the list of characters).
* `std::map<K,V>` is an association list `List (K × V)` with first-match
  lookup (`findVal`), insert-or-overwrite (`setAssoc`) and key counting
  (`countKey`).  `std::map` iterates in key order; the list keeps
  insertion order instead - no statement proved below depends on the
  traversal order of `m_args` (the only iterations over it are the
  default-reload in `ResetValues`, whose keys are unique, and the
  required-argument scans, for which we only ever prove existential or
  emptiness facts).
* `std::set<std::string> possibleValues` is a `List String`; only
  membership is observed (`IsValidValue`).
* C++ exceptions become `Except String`; `Parse` catches them and
  returns the failure message together with the mutated object state,
  mirroring the `try`/`catch` in `Args::Parse`.
-/

set_option autoImplicit false

/-- `enum class Ordinality { Required, Optional }`. -/
inductive Ordinality where
  | Required : Ordinality
  | Optional : Ordinality
deriving DecidableEq, BEq

/-- Class `Arg` of CommandLine.h: one declared command-line argument. -/
structure Arg where
  name : String
  letter : String
  description : String
  possibleValues : List String
  defaultValue : String
  defaultValueSet : Bool
  ordinality : Ordinality
  isFlag : Bool
  isPositional : Bool
deriving DecidableEq

/-- `Arg::IsFlag`. -/
def Arg.IsFlag (a : Arg) : Bool := a.isFlag

/-- `Arg::IsRequired`: `ordinality == Is::Required`. -/
def Arg.IsRequired (a : Arg) : Bool := a.ordinality == Ordinality.Required

/-- `Arg::IsValidValue`: an empty `possibleValues` set accepts anything,
otherwise the value must be a member of the set. -/
def Arg.IsValidValue (a : Arg) (value : String) : Bool :=
  if a.possibleValues.length == 0 then true
  else a.possibleValues.contains value

/-- `Arg::CheckValidity`: name at least two characters, letter one
character or blank; throws `std::invalid_argument` otherwise. -/
def Arg.CheckValidity (a : Arg) : Except String Unit :=
  if a.name.length < 2 then
    .error "argument name must be two or more letters"
  else if !(a.letter.length == 1 || a.letter.length == 0) then
    .error "argument letter must be one letter or blank"
  else .ok ()

/-- The `Arg(name, letter, description, ordinality)` constructor. -/
def Arg.make (name letter description : String) (ordinality : Ordinality) :
    Except String Arg :=
  let a : Arg :=
    { name, letter, description, possibleValues := [],
      defaultValue := "", defaultValueSet := false, ordinality,
      isFlag := false, isPositional := false }
  match a.CheckValidity with
  | .error e => .error e
  | .ok _ => .ok a

/-- The `Arg(name, letter, description, defaultValue)` constructor:
a default value forces `Is::Optional`. -/
def Arg.makeWithDefault (name letter description defaultValue : String) :
    Except String Arg :=
  let a : Arg :=
    { name, letter, description, possibleValues := [],
      defaultValue, defaultValueSet := true, ordinality := .Optional,
      isFlag := false, isPositional := false }
  match a.CheckValidity with
  | .error e => .error e
  | .ok _ => .ok a

/-- The `Arg(name, letter, description, possibleValues, defaultValue)`
constructor: rejects a default outside the allowed set, forces
`Is::Optional`. -/
def Arg.makeWithValuesAndDefault (name letter description : String)
    (possibleValues : List String) (defaultValue : String) :
    Except String Arg :=
  let a : Arg :=
    { name, letter, description, possibleValues,
      defaultValue, defaultValueSet := true, ordinality := .Optional,
      isFlag := false, isPositional := false }
  if !a.IsValidValue defaultValue then
    .error ("default value " ++ defaultValue ++ " is not present in allowed values")
  else match a.CheckValidity with
    | .error e => .error e
    | .ok _ => .ok a

/-- The `Arg(name, letter, description, possibleValues, ordinality)`
constructor. -/
def Arg.makeWithValues (name letter description : String)
    (possibleValues : List String) (ordinality : Ordinality) :
    Except String Arg :=
  let a : Arg :=
    { name, letter, description, possibleValues,
      defaultValue := "", defaultValueSet := false, ordinality,
      isFlag := false, isPositional := false }
  match a.CheckValidity with
  | .error e => .error e
  | .ok _ => .ok a

/-- The `PositionalArg(name, description, ordinality)` constructor:
blank letter, then `isPositional = true`. -/
def Arg.makePositional (name description : String) (ordinality : Ordinality) :
    Except String Arg :=
  match Arg.make name "" description ordinality with
  | .error e => .error e
  | .ok a => .ok { a with isPositional := true }

/-- The `Flag(name, letter, description)` constructor: `Is::Optional`,
then `isFlag = true` (and `CheckValidity` runs again, harmlessly). -/
def Arg.makeFlag (name letter description : String) : Except String Arg :=
  match Arg.make name letter description .Optional with
  | .error e => .error e
  | .ok a =>
    let f : Arg := { a with isFlag := true }
    match f.CheckValidity with
    | .error e => .error e
    | .ok _ => .ok f

/-- First-match lookup in an association list (`std::map::find` /
`operator[]` read). -/
def findVal {α : Type} : List (String × α) → String → Option α
  | [], _ => none
  | (k', v') :: rest, k => if k' == k then some v' else findVal rest k

/-- Insert-or-overwrite (`std::map::operator[] = v`). -/
def setAssoc {α : Type} : List (String × α) → String → α → List (String × α)
  | [], k, v => [(k, v)]
  | (k', v') :: rest, k, v =>
    if k' == k then (k, v) :: rest else (k', v') :: setAssoc rest k v

/-- Number of entries with the given key (`std::map::count`). -/
def countKey {α : Type} : List (String × α) → String → Nat
  | [], _ => 0
  | (k', _) :: rest, k => (if k' == k then 1 else 0) + countKey rest k

/-- Class `Args` of CommandLine.h: the registry plus the mutable value
store. -/
structure Args where
  m_args : List (String × Arg)
  m_insertionOrder : List String
  m_orderedArgNames : List String
  m_currentOrderedArgIndex : Nat
  m_argLookup : List (String × String)
  m_argValues : List (String × String)
deriving DecidableEq

/-- The member-initialised state of a freshly allocated `Args` object,
before the constructor body runs. -/
def emptyArgs : Args :=
  { m_args := [], m_insertionOrder := [], m_orderedArgNames := [],
    m_currentOrderedArgIndex := 0, m_argLookup := [], m_argValues := [] }

/-- `Args::ResetValues`: clear the value store, reset the positional
cursor, reload every declared default. -/
def ResetValues (st : Args) : Args :=
  { st with
    m_argValues :=
      st.m_args.foldl
        (fun m p =>
          if p.2.defaultValueSet then setAssoc m p.2.name p.2.defaultValue else m)
        [],
    m_currentOrderedArgIndex := 0 }

/-- One iteration of the `Args::Args` constructor loop: duplicate-name
check, insertion into `m_args`/`m_insertionOrder`, then either the
letter index (non-blank letter, duplicate-letter check) or the
positional list, followed by `ResetValues`. -/
def addArg (st : Args) (arg : Arg) : Except String Args :=
  if 0 < countKey st.m_args arg.name then
    .error "cannot have two arguments with the same name"
  else
    let st1 : Args :=
      { st with
        m_args := setAssoc st.m_args arg.name arg,
        m_insertionOrder := st.m_insertionOrder ++ [arg.name] }
    if 0 < arg.letter.length then
      if 0 < countKey st1.m_argLookup arg.letter then
        .error "cannot have two arguments with the same letter"
      else
        .ok (ResetValues
          { st1 with m_argLookup := setAssoc st1.m_argLookup arg.letter arg.name })
    else
      .ok (ResetValues
        { st1 with m_orderedArgNames := st1.m_orderedArgNames ++ [arg.name] })

/-- The `Args::Args` constructor loop over the declaration list. -/
def addArgs : Args → List Arg → Except String Args
  | st, [] => .ok st
  | st, a :: rest =>
    match addArg st a with
    | .error e => .error e
    | .ok st1 => addArgs st1 rest

/-- The `Args::Args(initializer_list<Arg>)` constructor. -/
def mkArgs (decls : List Arg) : Except String Args := addArgs emptyArgs decls

/-- `Args::StripDashes`: empty tokens throw; a token not starting with
`-` is returned whole; otherwise two leading dashes are dropped if the
second character is also `-`, else one. -/
def StripDashes (s : String) : Except String String :=
  match s.data with
  | [] => .error "argument needs to be at least one character"
  | c :: rest =>
    if c == '-' then
      match rest with
      | d :: rest2 => if d == '-' then .ok (String.mk rest2) else .ok (String.mk rest)
      | [] => .ok (String.mk rest)
    else .ok s

/-- `Args::LookupArg`: rewrite a letter to its full name through
`m_argLookup`, then look the (possibly rewritten) name up in `m_args`.
Returns the rewritten name together with the found argument. -/
def LookupArg (st : Args) (nv : String) : String × Option Arg :=
  let name :=
    match findVal st.m_argLookup nv with
    | some full => full
    | none => nv
  (name, findVal st.m_args name)

/-- `Args::IsSet`: `m_argValues.count(name) > 0`. -/
def IsSet (st : Args) (name : String) : Bool :=
  decide (0 < countKey st.m_argValues name)

/-- `Args::Get`: `m_argValues[name]`.  `std::map::operator[]` inserts a
default-constructed (empty) string when the key is absent, so the
accessor returns the looked-up value together with the possibly mutated
object. -/
def Get (st : Args) (name : String) : String × Args :=
  match findVal st.m_argValues name with
  | some v => (v, st)
  | none => ("", { st with m_argValues := setAssoc st.m_argValues name "" })

/-- The token-scanning `while` loop of `Args::Parse`.  Returns the
outcome (`.error` models the thrown `std::invalid_argument`) together
with the object state at exit, since the C++ `catch` keeps all
mutations made before the throw. -/
def parseLoop : Args → List String → Except String Unit × Args
  | st, [] => (.ok (), st)
  | st, tok :: rest =>
    match StripDashes tok with
    | .error e => (.error e, st)
    | .ok nv =>
      match LookupArg st nv with
      | (name, some arg) =>
        if arg.isFlag then
          parseLoop { st with m_argValues := setAssoc st.m_argValues name "" } rest
        else
          match rest with
          | [] => (.error ("argument " ++ tok ++ " given without a value"), st)
          | v :: rest2 =>
            if arg.IsValidValue v then
              parseLoop { st with m_argValues := setAssoc st.m_argValues name v } rest2
            else
              (.error ("value " ++ v ++ " for argument " ++ tok ++
                " isn't one of the options"), st)
      | (name, none) =>
        if st.m_currentOrderedArgIndex < st.m_orderedArgNames.length then
          parseLoop
            { st with
              m_argValues :=
                setAssoc st.m_argValues
                  (st.m_orderedArgNames.getD st.m_currentOrderedArgIndex "") name,
              m_currentOrderedArgIndex := st.m_currentOrderedArgIndex + 1 } rest
        else
          (.error ("couldn't find " ++ tok ++ " in specified list of arguments"), st)

/-- The empty-command-line check of `Args::Parse`: throw on the first
required declaration encountered, regardless of defaults. -/
def findRequired : List (String × Arg) → Option Arg
  | [] => none
  | (_, a) :: rest => if a.IsRequired then some a else findRequired rest

/-- The post-scan check of `Args::Parse`: the first required declaration
whose name has no entry in the value store. -/
def findReqUnset : Args → List (String × Arg) → Option Arg
  | _, [] => none
  | st, (_, a) :: rest =>
    if a.IsRequired && !IsSet st a.name then some a else findReqUnset st rest

/-- `Args::Parse(list<string>)`: reset, handle the empty command line,
scan the tokens, then check required arguments; a thrown
`std::invalid_argument` is caught and reported as `.error` with the
mutations kept. -/
def Parse (st0 : Args) (commandLine : List String) : Except String Unit × Args :=
  let st := ResetValues st0
  if commandLine.isEmpty then
    match findRequired st.m_args with
    | some a => (.error (a.name ++ " is required but was not set"), st)
    | none => (.ok (), st)
  else
    match parseLoop st commandLine with
    | (.error e, st1) => (.error e, st1)
    | (.ok _, st1) =>
      match findReqUnset st1 st1.m_args with
      | some a => (.error (a.name ++ " is required but was not set"), st1)
      | none => (.ok (), st1)

/-! ### Concrete declarations used to instantiate the theorems -/

/-- `Arg("colour", "c", "Colour", { "red", "green", "blue" })` from the
header's usage example and the spec's concrete scenario. -/
def colourOpt : Arg :=
  { name := "colour", letter := "c", description := "Colour",
    possibleValues := ["red", "green", "blue"], defaultValue := "",
    defaultValueSet := false, ordinality := .Optional, isFlag := false,
    isPositional := false }

/-- `Flag("verbose", "v", "Verbose")`. -/
def verboseFlag : Arg :=
  { name := "verbose", letter := "v", description := "Verbose",
    possibleValues := [], defaultValue := "", defaultValueSet := false,
    ordinality := .Optional, isFlag := true, isPositional := false }

/-- `PositionalArg("input", "Input file", Is::Optional)`. -/
def inputPos : Arg :=
  { name := "input", letter := "", description := "Input file",
    possibleValues := [], defaultValue := "", defaultValueSet := false,
    ordinality := .Optional, isFlag := false, isPositional := true }

/-- `Arg("number", "n", "Number of things", Is::Required)`. -/
def numberReq : Arg :=
  { name := "number", letter := "n", description := "Number of things",
    possibleValues := [], defaultValue := "", defaultValueSet := false,
    ordinality := .Required, isFlag := false, isPositional := false }

/-- The registry built from `{ colourOpt, inputPos }`. -/
def regColourInput : Args :=
  { m_args := [("colour", colourOpt), ("input", inputPos)],
    m_insertionOrder := ["colour", "input"],
    m_orderedArgNames := ["input"], m_currentOrderedArgIndex := 0,
    m_argLookup := [("c", "colour")], m_argValues := [] }

/-- The registry built from `{ verboseFlag }`. -/
def regVerbose : Args :=
  { m_args := [("verbose", verboseFlag)],
    m_insertionOrder := ["verbose"],
    m_orderedArgNames := [], m_currentOrderedArgIndex := 0,
    m_argLookup := [("v", "verbose")], m_argValues := [] }

/-- The registry built from `{ colourOpt }`. -/
def regColour : Args :=
  { m_args := [("colour", colourOpt)],
    m_insertionOrder := ["colour"],
    m_orderedArgNames := [], m_currentOrderedArgIndex := 0,
    m_argLookup := [("c", "colour")], m_argValues := [] }

/-- The registry built from `{ inputPos }`. -/
def regInput : Args :=
  { m_args := [("input", inputPos)],
    m_insertionOrder := ["input"],
    m_orderedArgNames := ["input"], m_currentOrderedArgIndex := 0,
    m_argLookup := [], m_argValues := [] }

/-- The registry built from `{ numberReq }`. -/
def regNumberReq : Args :=
  { m_args := [("number", numberReq)],
    m_insertionOrder := ["number"],
    m_orderedArgNames := [], m_currentOrderedArgIndex := 0,
    m_argLookup := [("n", "number")], m_argValues := [] }

/-- `Arg("text", "s", "Some text")`: an option accepting any value. -/
def textOpt : Arg :=
  { name := "text", letter := "s", description := "Some text",
    possibleValues := [], defaultValue := "", defaultValueSet := false,
    ordinality := .Optional, isFlag := false, isPositional := false }

/-- The registry built from `{ textOpt }`. -/
def regText : Args :=
  { m_args := [("text", textOpt)],
    m_insertionOrder := ["text"],
    m_orderedArgNames := [], m_currentOrderedArgIndex := 0,
    m_argLookup := [("s", "text")], m_argValues := [] }

/-- The registry built from `{ colourOpt, verboseFlag }`. -/
def regColourVerbose : Args :=
  { m_args := [("colour", colourOpt), ("verbose", verboseFlag)],
    m_insertionOrder := ["colour", "verbose"],
    m_orderedArgNames := [], m_currentOrderedArgIndex := 0,
    m_argLookup := [("c", "colour"), ("v", "verbose")], m_argValues := [] }

/-- `Flag("quiet", "", "Quiet")`: a flag with a blank letter. -/
def quietFlagNL : Arg :=
  { name := "quiet", letter := "", description := "Quiet",
    possibleValues := [], defaultValue := "", defaultValueSet := false,
    ordinality := .Optional, isFlag := true, isPositional := false }

/-- `Arg("level", "", "Level")`: an option with a blank letter. -/
def levelOptNL : Arg :=
  { name := "level", letter := "", description := "Level",
    possibleValues := [], defaultValue := "", defaultValueSet := false,
    ordinality := .Optional, isFlag := false, isPositional := false }

/-- The registry built from `{ quietFlagNL, levelOptNL, inputPos }`: a
flag, an option and a positional argument, all with blank letters. -/
def regMixed : Args :=
  { m_args := [("quiet", quietFlagNL), ("level", levelOptNL), ("input", inputPos)],
    m_insertionOrder := ["quiet", "level", "input"],
    m_orderedArgNames := ["quiet", "level", "input"], m_currentOrderedArgIndex := 0,
    m_argLookup := [], m_argValues := [] }

/-! ### Association-list lemmas -/

theorem findVal_setAssoc {α : Type} (l : List (String × α)) (k : String) (v : α)
    (k' : String) :
    findVal (setAssoc l k v) k' = if k == k' then some v else findVal l k' := by
  induction l with
  | nil => simp [setAssoc, findVal]
  | cons p rest ih =>
    obtain ⟨pk, pv⟩ := p
    by_cases h : pk = k
    · by_cases h2 : k = k' <;> simp [setAssoc, findVal, beq_iff_eq, h, h2]
    · by_cases h2 : pk = k'
      · have hkk : ¬ k = k' := fun e => h (h2.trans e.symm)
        have h3 : ¬ k' = k := fun e => hkk e.symm
        simp [setAssoc, findVal, beq_iff_eq, h, h2, hkk, h3, ih]
      · simp [setAssoc, findVal, beq_iff_eq, h, h2, ih]

theorem countKey_append {α : Type} (l1 l2 : List (String × α)) (k : String) :
    countKey (l1 ++ l2) k = countKey l1 k + countKey l2 k := by
  induction l1 with
  | nil => simp [countKey]
  | cons p rest ih => simp [countKey, ih]; omega

theorem findVal_eq_none_iff_countKey {α : Type} (l : List (String × α)) (k : String) :
    findVal l k = none ↔ countKey l k = 0 := by
  induction l with
  | nil => simp [findVal, countKey]
  | cons p rest ih =>
    obtain ⟨pk, pv⟩ := p
    by_cases h : pk = k <;> simp [findVal, countKey, beq_iff_eq, h, ih]

theorem findVal_isSome_iff_countKey {α : Type} (l : List (String × α)) (k : String) :
    (findVal l k).isSome = true ↔ 0 < countKey l k := by
  rw [Option.isSome_iff_ne_none]
  constructor
  · intro h
    rcases Nat.eq_zero_or_pos (countKey l k) with h0 | h0
    · exact absurd ((findVal_eq_none_iff_countKey l k).mpr h0) h
    · exact h0
  · intro h hn
    rw [findVal_eq_none_iff_countKey] at hn
    omega

theorem setAssoc_of_countKey_zero {α : Type} (l : List (String × α)) (k : String)
    (v : α) (h : countKey l k = 0) : setAssoc l k v = l ++ [(k, v)] := by
  induction l with
  | nil => simp [setAssoc]
  | cons p rest ih =>
    obtain ⟨pk, pv⟩ := p
    simp only [countKey] at h
    by_cases hk : pk = k
    · simp [beq_iff_eq, hk] at h
    · simp only [setAssoc, beq_iff_eq, hk, if_neg, not_false_iff, List.cons_append,
        List.cons.injEq, true_and]
      exact ih (by omega)

theorem findVal_append_of_none {α : Type} (l1 l2 : List (String × α)) (k : String)
    (h : findVal l1 k = none) : findVal (l1 ++ l2) k = findVal l2 k := by
  induction l1 with
  | nil => simp
  | cons p rest ih =>
    obtain ⟨pk, pv⟩ := p
    by_cases hk : pk = k <;> simp [findVal, beq_iff_eq, hk] at h ⊢
    exact ih h

theorem findVal_append_of_some {α : Type} (l1 l2 : List (String × α)) (k : String)
    (v : α) (h : findVal l1 k = some v) : findVal (l1 ++ l2) k = some v := by
  induction l1 with
  | nil => simp [findVal] at h
  | cons p rest ih =>
    obtain ⟨pk, pv⟩ := p
    by_cases hk : pk = k <;> simp [findVal, beq_iff_eq, hk] at h ⊢
    · exact h
    · exact ih h

theorem findVal_eq_none_of_forall {α : Type} (l : List (String × α)) (k : String)
    (h : ∀ p ∈ l, ¬ p.1 = k) : findVal l k = none := by
  induction l with
  | nil => rfl
  | cons p rest ih =>
    obtain ⟨pk, pv⟩ := p
    have hk : ¬ pk = k := h (pk, pv) (by simp)
    simp only [findVal, beq_iff_eq, hk, if_neg, not_false_iff]
    exact ih fun q hq => h q (by simp [hq])

/-! ### `ResetValues` and the `Args::Args` constructor loop -/

theorem ResetValues_m_args (st : Args) : (ResetValues st).m_args = st.m_args := rfl

theorem ResetValues_m_argLookup (st : Args) :
    (ResetValues st).m_argLookup = st.m_argLookup := rfl

theorem ResetValues_m_orderedArgNames (st : Args) :
    (ResetValues st).m_orderedArgNames = st.m_orderedArgNames := rfl

theorem ResetValues_index (st : Args) :
    (ResetValues st).m_currentOrderedArgIndex = 0 := rfl

theorem addArg_ok_fields (st : Args) (arg : Arg) (st' : Args)
    (h : addArg st arg = .ok st') :
    st'.m_args = st.m_args ++ [(arg.name, arg)] ∧
    st'.m_argLookup = st.m_argLookup ++
      (if 0 < arg.letter.length then [(arg.letter, arg.name)] else []) ∧
    st'.m_orderedArgNames = st.m_orderedArgNames ++
      (if arg.letter.length = 0 then [arg.name] else []) ∧
    st'.m_currentOrderedArgIndex = 0 ∧
    countKey st.m_args arg.name = 0 := by
  simp only [addArg] at h
  split at h
  · exact absurd h (by simp)
  · rename_i hdup
    have hc : countKey st.m_args arg.name = 0 := by omega
    split at h
    · rename_i hl
      split at h
      · exact absurd h (by simp)
      · rename_i hdl
        have hcl : countKey st.m_argLookup arg.letter = 0 := by
          simpa using fun h0 => hdl h0
        cases h
        refine ⟨?_, ?_, ?_, rfl, hc⟩
        · simpa [ResetValues] using setAssoc_of_countKey_zero _ _ _ hc
        · simpa [ResetValues, hl] using setAssoc_of_countKey_zero _ _ _ hcl
        · simp [ResetValues, Nat.pos_iff_ne_zero.mp hl]
    · rename_i hl
      cases h
      refine ⟨?_, ?_, ?_, rfl, hc⟩
      · simpa [ResetValues] using setAssoc_of_countKey_zero _ _ _ hc
      · simp [ResetValues, hl]
      · simp [ResetValues, Nat.eq_zero_of_not_pos (by simpa using hl)]

theorem addArgs_ok_m_args (decls : List Arg) (st0 st : Args)
    (h : addArgs st0 decls = .ok st) :
    st.m_args = st0.m_args ++ decls.map (fun a => (a.name, a)) := by
  induction decls generalizing st0 with
  | nil => cases h; simp
  | cons d rest ih =>
    simp only [addArgs] at h
    split at h
    · exact absurd h (by simp)
    · rename_i st1 hadd
      have hf := addArg_ok_fields st0 d st1 hadd
      rw [ih st1 h, hf.1]
      simp

theorem addArgs_ok_argLookup (decls : List Arg) (st0 st : Args)
    (h : addArgs st0 decls = .ok st) :
    st.m_argLookup = st0.m_argLookup ++
      (decls.filter (fun a => decide (0 < a.letter.length))).map
        (fun a => (a.letter, a.name)) := by
  induction decls generalizing st0 with
  | nil => cases h; simp
  | cons d rest ih =>
    simp only [addArgs] at h
    split at h
    · exact absurd h (by simp)
    · rename_i st1 hadd
      have hf := addArg_ok_fields st0 d st1 hadd
      rw [ih st1 h, hf.2.1]
      by_cases hl : 0 < d.letter.length <;> simp [hl, List.filter_cons]

theorem addArgs_ok_ordered (decls : List Arg) (st0 st : Args)
    (h : addArgs st0 decls = .ok st) :
    st.m_orderedArgNames = st0.m_orderedArgNames ++
      (decls.filter (fun a => decide (a.letter.length = 0))).map (fun a => a.name) := by
  induction decls generalizing st0 with
  | nil => cases h; simp
  | cons d rest ih =>
    simp only [addArgs] at h
    split at h
    · exact absurd h (by simp)
    · rename_i st1 hadd
      have hf := addArg_ok_fields st0 d st1 hadd
      rw [ih st1 h, hf.2.2.1]
      by_cases hl : d.letter.length = 0 <;> simp [hl, List.filter_cons]

theorem addArgs_ok_index (decls : List Arg) (st0 st : Args)
    (h : addArgs st0 decls = .ok st)
    (h0 : st0.m_currentOrderedArgIndex = 0) :
    st.m_currentOrderedArgIndex = 0 := by
  induction decls generalizing st0 with
  | nil => cases h; exact h0
  | cons d rest ih =>
    simp only [addArgs] at h
    split at h
    · exact absurd h (by simp)
    · rename_i st1 hadd
      exact ih st1 h (addArg_ok_fields st0 d st1 hadd).2.2.2.1

theorem addArgs_fresh (decls : List Arg) (st0 st : Args)
    (h : addArgs st0 decls = .ok st) :
    ∀ b ∈ decls, countKey st0.m_args b.name = 0 := by
  induction decls generalizing st0 with
  | nil => intro b hb; simp at hb
  | cons d rest ih =>
    simp only [addArgs] at h
    split at h
    · exact absurd h (by simp)
    · rename_i st1 hadd
      have hf := addArg_ok_fields st0 d st1 hadd
      intro b hb
      rcases List.mem_cons.mp hb with rfl | hb
      · exact hf.2.2.2.2
      · have := ih st1 h b hb
        rw [hf.1, countKey_append] at this
        omega

theorem addArgs_findVal (decls : List Arg) (st0 st : Args)
    (h : addArgs st0 decls = .ok st) (a : Arg) (ha : a ∈ decls) :
    findVal st.m_args a.name = some a := by
  induction decls generalizing st0 with
  | nil => simp at ha
  | cons d rest ih =>
    simp only [addArgs] at h
    split at h
    · exact absurd h (by simp)
    · rename_i st1 hadd
      have hf := addArg_ok_fields st0 d st1 hadd
      rcases List.mem_cons.mp ha with rfl | ha
      · have hnone : findVal st0.m_args a.name = none :=
          (findVal_eq_none_iff_countKey _ _).mpr hf.2.2.2.2
        have h1 : findVal st1.m_args a.name = some a := by
          rw [hf.1, findVal_append_of_none _ _ _ hnone]
          simp [findVal]
        rw [addArgs_ok_m_args rest st1 st h]
        exact findVal_append_of_some _ _ _ _ h1
      · exact ih st1 h ha

theorem addArgs_name_inj (decls : List Arg) (st0 st : Args)
    (h : addArgs st0 decls = .ok st) (a b : Arg) (ha : a ∈ decls) (hb : b ∈ decls)
    (hn : a.name = b.name) : a = b := by
  induction decls generalizing st0 with
  | nil => simp at ha
  | cons d rest ih =>
    simp only [addArgs] at h
    split at h
    · exact absurd h (by simp)
    · rename_i st1 hadd
      have hf := addArg_ok_fields st0 d st1 hadd
      rcases List.mem_cons.mp ha with ha' | ha'
      · rcases List.mem_cons.mp hb with hb' | hb'
        · rw [ha', hb']
        · exfalso
          have hfr := addArgs_fresh rest st1 st h b hb'
          rw [hf.1, countKey_append, ← hn, ha'] at hfr
          simp [countKey, beq_iff_eq] at hfr
      · rcases List.mem_cons.mp hb with hb' | hb'
        · exfalso
          have hfr := addArgs_fresh rest st1 st h a ha'
          rw [hf.1, countKey_append, hn, hb'] at hfr
          simp [countKey, beq_iff_eq] at hfr
        · exact ih st1 h ha' hb'

theorem resetFold_isSome (l : List (String × Arg)) (acc : List (String × String))
    (nm : String)
    (h : (findVal acc nm).isSome = true ∨
      ∃ p ∈ l, p.2.defaultValueSet = true ∧ p.2.name = nm) :
    (findVal
      (l.foldl
        (fun m p =>
          if p.2.defaultValueSet then setAssoc m p.2.name p.2.defaultValue else m)
        acc) nm).isSome = true := by
  induction l generalizing acc with
  | nil =>
    rcases h with h | h
    · simpa using h
    · simp at h
  | cons p rest ih =>
    simp only [List.foldl_cons]
    apply ih
    rcases h with h | h
    · left
      split
      · rw [findVal_setAssoc]
        split <;> simp [h]
      · exact h
    · rcases h with ⟨q, hq, hqd, hqn⟩
      rcases List.mem_cons.mp hq with hq' | hq'
      · left
        rw [← hq'] at *
        simp only [hqd, if_pos]
        rw [findVal_setAssoc]
        simp [hqn]
      · right
        exact ⟨q, hq', hqd, hqn⟩

theorem resetFold_none (l : List (String × Arg)) (acc : List (String × String))
    (nm : String) (hacc : findVal acc nm = none)
    (h : ∀ p ∈ l, p.2.name = nm → p.2.defaultValueSet = false) :
    findVal
      (l.foldl
        (fun m p =>
          if p.2.defaultValueSet then setAssoc m p.2.name p.2.defaultValue else m)
        acc) nm = none := by
  induction l generalizing acc with
  | nil => simpa using hacc
  | cons p rest ih =>
    simp only [List.foldl_cons]
    apply ih
    · split
      · rename_i hset
        rw [findVal_setAssoc]
        split
        · rename_i hnm
          rw [beq_iff_eq] at hnm
          exact absurd (h p (by simp) hnm) (by simp [hset])
        · exact hacc
      · exact hacc
    · exact fun q hq => h q (by simp [hq])

theorem ResetValues_isSome_of_default (st : Args) (nm : String)
    (h : ∃ p ∈ st.m_args, p.2.defaultValueSet = true ∧ p.2.name = nm) :
    (findVal (ResetValues st).m_argValues nm).isSome = true :=
  resetFold_isSome st.m_args [] nm (Or.inr h)

theorem ResetValues_none_of_no_default (st : Args) (nm : String)
    (h : ∀ p ∈ st.m_args, p.2.name = nm → p.2.defaultValueSet = false) :
    findVal (ResetValues st).m_argValues nm = none :=
  resetFold_none st.m_args [] nm rfl h

/-! ### Required-argument scans -/

theorem findRequired_map (decls : List Arg) :
    findRequired (decls.map (fun a => (a.name, a))) =
      decls.find? (fun a => a.IsRequired) := by
  induction decls with
  | nil => rfl
  | cons d rest ih =>
    simp only [List.map_cons, findRequired, List.find?]
    split <;> rename_i hreq
    · simp [hreq]
    · rw [Bool.not_eq_true] at hreq
      simp [hreq, ih]

theorem findReqUnset_eq_none (st : Args) (l : List (String × Arg))
    (h : ∀ p ∈ l, p.2.IsRequired = true → IsSet st p.2.name = true) :
    findReqUnset st l = none := by
  induction l with
  | nil => rfl
  | cons p rest ih =>
    simp only [findReqUnset]
    split
    · rename_i hcond
      simp only [Bool.and_eq_true, Bool.not_eq_true'] at hcond
      exact absurd (h p (by simp) hcond.1) (by simp [hcond.2])
    · exact ih fun q hq => h q (by simp [hq])

theorem findReqUnset_some_required (st : Args) (l : List (String × Arg)) (a : Arg)
    (h : findReqUnset st l = some a) :
    (∃ p ∈ l, p.2 = a) ∧ a.IsRequired = true ∧ IsSet st a.name = false := by
  induction l with
  | nil => simp [findReqUnset] at h
  | cons p rest ih =>
    simp only [findReqUnset] at h
    split at h
    · rename_i hcond
      simp only [Bool.and_eq_true, Bool.not_eq_true'] at hcond
      cases h
      exact ⟨⟨p, by simp⟩, hcond.1, hcond.2⟩
    · rcases ih h with ⟨⟨q, hq, hqa⟩, h1, h2⟩
      exact ⟨⟨q, by simp [hq], hqa⟩, h1, h2⟩

/-! ### `StripDashes` -/

theorem StripDashes_double (s : String) : StripDashes ("--" ++ s) = .ok s := by
  have hd : ("--" ++ s).data = '-' :: '-' :: s.data := by
    rw [String.data_append]; rfl
  simp only [StripDashes, hd]
  rfl

theorem StripDashes_single (s : String) (h : s.data.head? ≠ some '-') :
    StripDashes ("-" ++ s) = .ok s := by
  have hd : ("-" ++ s).data = '-' :: s.data := by
    rw [String.data_append]; rfl
  simp only [StripDashes, hd]
  match hs : s.data with
  | [] =>
    have : s = String.mk [] := by rw [← hs]
    simp [this]
  | c :: cs =>
    rw [hs] at h
    have hc : ¬ c == '-' := by simpa using fun e => h (by rw [e]; rfl)
    have : s = String.mk (c :: cs) := by rw [← hs]
    simp [hc, this]

theorem StripDashes_bare (s : String) (h1 : s.data ≠ [])
    (h2 : s.data.head? ≠ some '-') : StripDashes s = .ok s := by
  simp only [StripDashes]
  match hs : s.data with
  | [] => exact absurd hs h1
  | c :: cs =>
    rw [hs] at h2
    have hc : ¬ c == '-' := by simpa using fun e => h2 (by rw [e]; rfl)
    simp [hc]

/-! ### Name resolution against a constructed registry -/

theorem mkArgs_lookup_keys (decls : List Arg) (st : Args)
    (hmk : mkArgs decls = .ok st) :
    ∀ p ∈ st.m_argLookup, ∃ a ∈ decls, p.1 = a.letter ∧ 0 < a.letter.length := by
  intro p hp
  rw [addArgs_ok_argLookup decls emptyArgs st hmk] at hp
  simp only [emptyArgs, List.nil_append] at hp
  rcases List.mem_map.mp hp with ⟨a, ha, rfl⟩
  rcases List.mem_filter.mp ha with ⟨hmem, hlen⟩
  exact ⟨a, hmem, rfl, by simpa using hlen⟩

theorem mkArgs_m_args (decls : List Arg) (st : Args) (hmk : mkArgs decls = .ok st) :
    st.m_args = decls.map (fun a => (a.name, a)) := by
  have := addArgs_ok_m_args decls emptyArgs st hmk
  simpa [emptyArgs] using this

theorem LookupArg_name (decls : List Arg) (st : Args) (o : Arg)
    (hmk : mkArgs decls = .ok st)
    (hval : ∀ a ∈ decls, 2 ≤ a.name.length ∧ a.letter.length ≤ 1)
    (ho : o ∈ decls) :
    LookupArg st o.name = (o.name, some o) := by
  have hlk : findVal st.m_argLookup o.name = none := by
    apply findVal_eq_none_of_forall
    intro p hp
    rcases mkArgs_lookup_keys decls st hmk p hp with ⟨a, ha, hpl, hlen⟩
    intro he
    have h1 : a.letter.length ≤ 1 := (hval a ha).2
    have h2 : 2 ≤ o.name.length := (hval o ho).1
    rw [← hpl, he] at h1
    omega
  simp [LookupArg, hlk, addArgs_findVal decls emptyArgs st hmk o ho]

/-! ### Single steps of the scanning loop -/

theorem parseLoop_flag_step (st : Args) (tok nv : String) (rest : List String)
    (a : Arg) (hstrip : StripDashes tok = .ok nv)
    (hlook : (LookupArg st nv).2 = some a) (hflag : a.isFlag = true) :
    parseLoop st (tok :: rest) =
      parseLoop
        { st with m_argValues := setAssoc st.m_argValues (LookupArg st nv).1 "" }
        rest := by
  rcases hL : LookupArg st nv with ⟨nm, oa⟩
  rw [hL] at hlook
  simp only at hlook
  subst hlook
  simp only [parseLoop, hstrip, hL, hflag, if_pos]

theorem parseLoop_novalue_step (st : Args) (tok nv : String) (a : Arg)
    (hstrip : StripDashes tok = .ok nv)
    (hlook : (LookupArg st nv).2 = some a) (hflag : a.isFlag = false) :
    parseLoop st [tok] =
      (.error ("argument " ++ tok ++ " given without a value"), st) := by
  rcases hL : LookupArg st nv with ⟨nm, oa⟩
  rw [hL] at hlook
  simp only at hlook
  subst hlook
  simp only [parseLoop, hstrip, hL, hflag, Bool.false_eq_true, if_neg,
    not_false_iff]

theorem parseLoop_value_step (st : Args) (tok nv v : String) (rest : List String)
    (a : Arg) (hstrip : StripDashes tok = .ok nv)
    (hlook : (LookupArg st nv).2 = some a) (hflag : a.isFlag = false) :
    parseLoop st (tok :: v :: rest) =
      if a.IsValidValue v then
        parseLoop
          { st with m_argValues := setAssoc st.m_argValues (LookupArg st nv).1 v }
          rest
      else
        (.error ("value " ++ v ++ " for argument " ++ tok ++
          " isn't one of the options"), st) := by
  rcases hL : LookupArg st nv with ⟨nm, oa⟩
  rw [hL] at hlook
  simp only at hlook
  subst hlook
  simp only [parseLoop, hstrip, hL, hflag, Bool.false_eq_true, if_neg,
    not_false_iff]

theorem parseLoop_positional_step (st : Args) (tok nv nm : String)
    (rest : List String) (hstrip : StripDashes tok = .ok nv)
    (hlook : LookupArg st nv = (nm, none)) :
    parseLoop st (tok :: rest) =
      if st.m_currentOrderedArgIndex < st.m_orderedArgNames.length then
        parseLoop
          { st with
            m_argValues :=
              setAssoc st.m_argValues
                (st.m_orderedArgNames.getD st.m_currentOrderedArgIndex "") nm,
            m_currentOrderedArgIndex := st.m_currentOrderedArgIndex + 1 }
          rest
      else
        (.error ("couldn't find " ++ tok ++ " in specified list of arguments"), st) := by
  simp only [parseLoop, hstrip, hlook]

/-! ### Claim C4 -/

/-- C4: the spec (and the repo's own test `AssertThrows(Args args({}),
invalid_argument)`) demand that building a registry from an empty
declaration list fails, but `Args::Args` only loops over the given
declarations and never checks for emptiness: `mkArgs []` succeeds and
returns a usable empty registry. -/
theorem C4_empty_declaration_list_accepted : mkArgs [] = .ok emptyArgs := rfl

/-! ### Claim C8 -/

/-- C8: over a state in which `name` is set, `Get` is read-only: it
returns the stored string and leaves the object unchanged, so no later
`IsSet` or `Get` observation is affected.  (The `IsSet` guard matters:
`std::map::operator[]` would insert an empty string for an unset name.) -/
theorem C8_get_readonly (st : Args) (name : String)
    (h : IsSet st name = true) :
    (Get st name).2 = st ∧
    (∀ n, IsSet (Get st name).2 n = IsSet st n) ∧
    (∀ n, Get (Get st name).2 n = Get st n) := by
  have hs : (findVal st.m_argValues name).isSome = true := by
    rw [findVal_isSome_iff_countKey]
    simpa [IsSet] using h
  obtain ⟨v, hv⟩ := Option.isSome_iff_exists.mp hs
  have h2 : (Get st name).2 = st := by simp [Get, hv]
  exact ⟨h2, fun n => by rw [h2], fun n => by rw [h2]⟩

/-- Witness for C8 on a concrete state that has `colour` set. -/
theorem C8_witness :
    (Get { emptyArgs with m_argValues := [("colour", "red")] } "colour").2 =
      { emptyArgs with m_argValues := [("colour", "red")] } :=
  (C8_get_readonly { emptyArgs with m_argValues := [("colour", "red")] } "colour"
    (by decide)).1

/-! ### Claim C3 -/

/-- C3 counterexample: with the registry `{ Flag("verbose","v") }`,
`Parse(["-v","bad"])` fails (no positional slot for `bad`), yet
afterwards `IsSet("verbose")` is true although `verbose` has no default
value (the pre-reset default store does not contain it): a value
recorded from the partially scanned token sequence of the failed call
is observable. -/
theorem C3_counterexample :
    mkArgs [verboseFlag] = .ok regVerbose ∧
    (Parse regVerbose ["-v", "bad"]).1 =
      .error "couldn't find bad in specified list of arguments" ∧
    IsSet (Parse regVerbose ["-v", "bad"]).2 "verbose" = true ∧
    findVal (ResetValues regVerbose).m_argValues "verbose" = none :=
  ⟨rfl, rfl, rfl, rfl⟩

/-- C3 amended: after any `Parse` call, failed or not, nothing from
before the call survives — the outcome and final state are independent
of the pre-call value store and positional cursor, because `Parse`
resets them first — but values recorded from the tokens scanned before
the failure point of a failed call remain observable through `IsSet`
and `Get`, as the concrete failed parse shows. -/
theorem C3_amended :
    (∀ (st : Args) (vs : List (String × String)) (k : Nat) (cl : List String),
      Parse { st with m_argValues := vs, m_currentOrderedArgIndex := k } cl =
        Parse st cl) ∧
    ((Parse regVerbose ["-v", "bad"]).1.isOk = false ∧
      IsSet (Parse regVerbose ["-v", "bad"]).2 "verbose" = true ∧
      IsSet (ResetValues regVerbose) "verbose" = false) :=
  ⟨fun _ _ _ _ => rfl, rfl, rfl, rfl⟩

/-! ### Claim C1 -/

/-- C1 counterexample: with registry `{ Arg("colour","c"),
PositionalArg("input") }`, the bare token `colour` (no leading dash) is
not treated as a positional value: it resolves to the declared name
`colour`, consumes `red` as its value, and the positional `input` stays
unset — against the claim, which predicts `input = "colour"`. -/
theorem C1_counterexample :
    mkArgs [colourOpt, inputPos] = .ok regColourInput ∧
    (Parse regColourInput ["colour", "red"]).1 = .ok () ∧
    (Get (Parse regColourInput ["colour", "red"]).2 "colour").1 = "red" ∧
    IsSet (Parse regColourInput ["colour", "red"]).2 "input" = false :=
  ⟨rfl, rfl, rfl, rfl⟩

/-- C1 amended: `StripDashes` removes two leading dashes when the second
character is a dash, one when only the first is, and none otherwise,
and the stripped candidate is then resolved identically whatever the
original dash form was (letter index first, then full-name index); only
a candidate that resolves to nothing is treated as a potential
positional value.  In particular the bare, one-dash and two-dash forms
of a token whose candidate resolves to a flag are parsed identically. -/
theorem C1_amended (st : Args) (s : String) (rest : List String) (a : Arg)
    (hne : s.data ≠ []) (hh : s.data.head? ≠ some '-')
    (hlook : (LookupArg st s).2 = some a) (hflag : a.isFlag = true) :
    StripDashes s = .ok s ∧ StripDashes ("-" ++ s) = .ok s ∧
    StripDashes ("--" ++ s) = .ok s ∧
    parseLoop st (s :: rest) = parseLoop st (("-" ++ s) :: rest) ∧
    parseLoop st (("-" ++ s) :: rest) = parseLoop st (("--" ++ s) :: rest) := by
  refine ⟨StripDashes_bare s hne hh, StripDashes_single s hh, StripDashes_double s,
    ?_, ?_⟩
  · rw [parseLoop_flag_step st s s rest a (StripDashes_bare s hne hh) hlook hflag,
      parseLoop_flag_step st ("-" ++ s) s rest a (StripDashes_single s hh) hlook hflag]
  · rw [parseLoop_flag_step st ("-" ++ s) s rest a (StripDashes_single s hh) hlook hflag,
      parseLoop_flag_step st ("--" ++ s) s rest a (StripDashes_double s) hlook hflag]

/-- Witness for C1 amended: the flag `verbose` of `regVerbose`, reached
through the candidate `verbose`, is parsed the same bare, one-dashed
and two-dashed. -/
theorem C1_amended_witness :
    StripDashes "verbose" = .ok "verbose" ∧
    StripDashes "-verbose" = .ok "verbose" ∧
    StripDashes "--verbose" = .ok "verbose" ∧
    parseLoop regVerbose ["verbose"] = parseLoop regVerbose ["-verbose"] ∧
    parseLoop regVerbose ["-verbose"] = parseLoop regVerbose ["--verbose"] := by
  have h := C1_amended regVerbose "verbose" [] verboseFlag (by decide) (by decide)
    (by decide) (by decide)
  exact h

/-! ### Claim C2 -/

theorem Parse_nil_eq (st : Args) :
    Parse st [] =
      (match findRequired st.m_args with
       | some a => (.error (a.name ++ " is required but was not set"), ResetValues st)
       | none => (.ok (), ResetValues st)) := rfl

theorem IsSet_iff_findVal (st : Args) (nm : String) :
    IsSet st nm = true ↔ (findVal st.m_argValues nm).isSome = true := by
  rw [findVal_isSome_iff_countKey]
  simp [IsSet]

/-- C2: over a registry built by the `Args` constructor from
declarations in which no required declaration carries a default (an
invariant every `Arg`/`Flag`/`PositionalArg` constructor maintains),
`Parse({})` fails exactly when some required declaration lacks a
default, and the failure message names a required declaration that is
not set in the result store. -/
theorem C2_parse_empty (decls : List Arg) (st : Args)
    (hmk : mkArgs decls = .ok st)
    (hctor : ∀ a ∈ decls, a.IsRequired = true → a.defaultValueSet = false) :
    ((Parse st []).1.isOk = false ↔
      ∃ a ∈ decls, a.IsRequired = true ∧ a.defaultValueSet = false) ∧
    (∀ e, (Parse st []).1 = .error e →
      ∃ a ∈ decls, a.IsRequired = true ∧ a.defaultValueSet = false ∧
        IsSet (Parse st []).2 a.name = false ∧
        e = a.name ++ " is required but was not set") := by
  have hm : st.m_args = decls.map (fun a => (a.name, a)) := mkArgs_m_args decls st hmk
  have hfr : findRequired st.m_args = decls.find? (fun a => a.IsRequired) := by
    rw [hm, findRequired_map]
  cases hfind : decls.find? (fun a => a.IsRequired) with
  | none =>
    have hnone : ∀ a ∈ decls, a.IsRequired = false := by
      intro a ha
      have := List.find?_eq_none.mp hfind a ha
      simpa using this
    have hp : Parse st [] = (.ok (), ResetValues st) := by
      rw [Parse_nil_eq, hfr, hfind]
    constructor
    · rw [hp]
      constructor
      · intro h
        simp [Except.isOk, Except.toBool] at h
      · rintro ⟨a, ha, hreq, _⟩
        exact absurd (hnone a ha) (by simp [hreq])
    · intro e he
      rw [hp] at he
      exact absurd he (by simp)
  | some a =>
    have hmem : a ∈ decls := List.mem_of_find?_eq_some hfind
    have hreq : a.IsRequired = true := List.find?_some hfind
    have hnd : a.defaultValueSet = false := hctor a hmem hreq
    have hp : Parse st [] =
        (.error (a.name ++ " is required but was not set"), ResetValues st) := by
      rw [Parse_nil_eq, hfr, hfind]
    have hunset : IsSet (ResetValues st) a.name = false := by
      have hnone : findVal (ResetValues st).m_argValues a.name = none := by
        apply ResetValues_none_of_no_default
        intro p hp2 hpn
        rw [hm] at hp2
        rcases List.mem_map.mp hp2 with ⟨b, hb, rfl⟩
        have hba : b = a := addArgs_name_inj decls emptyArgs st hmk b a hb hmem hpn
        rw [hba, hnd]
      rw [Bool.eq_false_iff]
      intro hset
      rw [IsSet_iff_findVal, hnone] at hset
      simp at hset
    constructor
    · rw [hp]
      exact ⟨fun _ => ⟨a, hmem, hreq, hnd⟩, fun _ => rfl⟩
    · intro e he
      rw [hp] at he
      simp only at he
      refine ⟨a, hmem, hreq, hnd, ?_, ?_⟩
      · rw [hp]
        exact hunset
      · cases he
        rfl

/-- Witness for C2: the registry `{ Arg("number","n",Is::Required) }`
makes `Parse({})` fail. -/
theorem C2_witness : (Parse regNumberReq []).1.isOk = false :=
  (C2_parse_empty [numberReq] regNumberReq rfl (by decide)).1.mpr
    ⟨numberReq, by decide, by decide, by decide⟩

/-! ### Claim C5 -/

theorem Parse_cons_eq (st : Args) (t : String) (ts : List String) :
    Parse st (t :: ts) =
      (match parseLoop (ResetValues st) (t :: ts) with
       | (.error e, st1) => (.error e, st1)
       | (.ok _, st1) =>
         match findReqUnset st1 st1.m_args with
         | some a => (.error (a.name ++ " is required but was not set"), st1)
         | none => (.ok (), st1)) := rfl

theorem IsValidValue_of_contains (o : Arg) (v : String)
    (hv : o.possibleValues.contains v = true) : o.IsValidValue v = true := by
  unfold Arg.IsValidValue
  split
  · rfl
  · exact hv

/-- C5: round-trip.  Over any registry whose declarations are
constructor-valid (names of length at least two, letters at most one
character) and whose required declarations other than `o` all carry
defaults, if the non-flag option `o` allows the value `v`, then
`Parse(["--name", v])` succeeds and `Get("name")` returns exactly `v`. -/
theorem C5_roundtrip (decls : List Arg) (st : Args) (o : Arg) (v : String)
    (hmk : mkArgs decls = .ok st) (ho : o ∈ decls) (hflag : o.isFlag = false)
    (hv : o.possibleValues.contains v = true)
    (hvalid : ∀ a ∈ decls, 2 ≤ a.name.length ∧ a.letter.length ≤ 1)
    (hreq : ∀ a ∈ decls, a.IsRequired = true →
      (a.name = o.name ∨ a.defaultValueSet = true)) :
    (Parse st ["--" ++ o.name, v]).1 = .ok () ∧
    (Get (Parse st ["--" ++ o.name, v]).2 o.name).1 = v := by
  have hla : LookupArg (ResetValues st) o.name = (o.name, some o) :=
    LookupArg_name decls st o hmk hvalid ho
  have hstep := parseLoop_value_step (ResetValues st) ("--" ++ o.name) o.name v []
    o (StripDashes_double o.name) (by rw [hla]) hflag
  rw [IsValidValue_of_contains o v hv, if_pos rfl] at hstep
  rw [hla] at hstep
  set st1 : Args :=
    { ResetValues st with
      m_argValues := setAssoc (ResetValues st).m_argValues o.name v } with hst1
  have hloop : parseLoop (ResetValues st) ["--" ++ o.name, v] = (.ok (), st1) := by
    rw [hstep]
    rfl
  have hget : findVal st1.m_argValues o.name = some v := by
    rw [hst1]
    simp only []
    rw [findVal_setAssoc]
    simp
  have hnone : findReqUnset st1 st1.m_args = none := by
    apply findReqUnset_eq_none
    intro p hp hpreq
    have hpm : p ∈ st.m_args := hp
    rw [mkArgs_m_args decls st hmk] at hpm
    rcases List.mem_map.mp hpm with ⟨b, hb, rfl⟩
    rw [IsSet_iff_findVal]
    rcases hreq b hb hpreq with hbo | hbd
    · rw [hst1]
      simp only []
      rw [findVal_setAssoc]
      simp [hbo]
    · have hsome : (findVal (ResetValues st).m_argValues b.name).isSome = true := by
        apply ResetValues_isSome_of_default
        refine ⟨(b.name, b), ?_, hbd, rfl⟩
        rw [mkArgs_m_args decls st hmk]
        exact List.mem_map.mpr ⟨b, hb, rfl⟩
      rw [hst1]
      simp only []
      rw [findVal_setAssoc]
      split
      · simp
      · exact hsome
  have hP : Parse st ["--" ++ o.name, v] = (.ok (), st1) := by
    rw [Parse_cons_eq, hloop]
    simp only [hnone]
  rw [hP]
  exact ⟨rfl, by simp [Get, hget]⟩

/-- Witness for C5: `Parse(["--colour","red"])` against the colour
option succeeds and `Get("colour") = "red"`. -/
theorem C5_witness :
    (Parse regColour ["--colour", "red"]).1 = .ok () ∧
    (Get (Parse regColour ["--colour", "red"]).2 "colour").1 = "red" :=
  C5_roundtrip [colourOpt] regColour colourOpt "red" rfl (by decide) rfl rfl
    (by decide) (by decide)

/-! ### Claim C6 -/

/-- C6 counterexample: against the colour option, `Parse(["-c","mauve"])`
fails with `value mauve for argument -c isn't one of the options` — a
message that contains the offending value `mauve` and the raw token
`-c`, but not the full name `colour`, contrary to the claim. -/
theorem C6_counterexample :
    mkArgs [colourOpt] = .ok regColour ∧
    (Parse regColour ["-c", "mauve"]).1 =
      .error "value mauve for argument -c isn't one of the options" ∧
    "mauve".data <:+:
      "value mauve for argument -c isn't one of the options".data ∧
    "-c".data <:+:
      "value mauve for argument -c isn't one of the options".data ∧
    ¬ "colour".data <:+:
      "value mauve for argument -c isn't one of the options".data :=
  ⟨rfl, rfl, by decide, by decide, by decide⟩

theorem not_IsValidValue (o : Arg) (v : String) (hne : o.possibleValues ≠ [])
    (hnv : o.possibleValues.contains v = false) : o.IsValidValue v = false := by
  unfold Arg.IsValidValue
  split
  · rename_i h
    rw [Nat.beq_eq_true_eq] at h
    exact absurd (List.length_eq_zero.mp h) hne
  · exact hnv

/-- C6 amended: for a non-flag option `o` with a non-empty allowed set
that does not contain `v`, `Parse(["--name", v])` fails with the exact
message `value <v> for argument <raw token> isn't one of the options`;
the raw token is the argument as typed, so the `--name` form mentions
the full name while the `-c` form mentions only the letter. -/
theorem C6_invalid_value (decls : List Arg) (st : Args) (o : Arg) (v : String)
    (hmk : mkArgs decls = .ok st) (ho : o ∈ decls) (hflag : o.isFlag = false)
    (hne : o.possibleValues ≠ [])
    (hnv : o.possibleValues.contains v = false)
    (hvalid : ∀ a ∈ decls, 2 ≤ a.name.length ∧ a.letter.length ≤ 1) :
    (Parse st ["--" ++ o.name, v]).1 =
      .error ("value " ++ v ++ " for argument --" ++ o.name ++
        " isn't one of the options") := by
  have hla : LookupArg (ResetValues st) o.name = (o.name, some o) :=
    LookupArg_name decls st o hmk hvalid ho
  have hstep := parseLoop_value_step (ResetValues st) ("--" ++ o.name) o.name v []
    o (StripDashes_double o.name) (by rw [hla]) hflag
  rw [not_IsValidValue o v hne hnv] at hstep
  simp only [Bool.false_eq_true, if_neg, not_false_iff] at hstep
  rw [Parse_cons_eq, hstep]
  have heq : "value " ++ v ++ " for argument " ++ ("--" ++ o.name) ++
      " isn't one of the options" =
    "value " ++ v ++ " for argument --" ++ o.name ++ " isn't one of the options" := by
    simp only [String.append_assoc]
    rw [← String.append_assoc " for argument " "--"
      (o.name ++ " isn't one of the options")]
    rfl
  rw [heq]

/-- Witness for C6 amended: the `--colour` form of the same failure. -/
theorem C6_witness :
    (Parse regColour ["--colour", "mauve"]).1 =
      .error "value mauve for argument --colour isn't one of the options" :=
  C6_invalid_value [colourOpt] regColour colourOpt "mauve" rfl (by decide) rfl
    (by decide) rfl (by decide)

/-! ### Claim C7 -/

/-- C7 counterexample: with the single positional declaration `input`,
`Parse(["-xy"])` succeeds and stores the dash-stripped candidate `xy`,
not the raw token `-xy`, as the positional value. -/
theorem C7_counterexample :
    mkArgs [inputPos] = .ok regInput ∧
    (Parse regInput ["-xy"]).1 = .ok () ∧
    (Get (Parse regInput ["-xy"]).2 "input").1 = "xy" ∧
    ¬ (Get (Parse regInput ["-xy"]).2 "input").1 = "-xy" :=
  ⟨rfl, rfl, rfl, by decide⟩

/-- C7 amended: when a token's stripped candidate resolves to no
declared name or letter, the scan consumes it as the next unconsumed
positional argument in declaration order, storing the dash-stripped
candidate (not the raw token) as its value and advancing the cursor;
when no positional slot remains it fails with `couldn't find <raw
token> in specified list of arguments`. -/
theorem C7_positional_consumes_stripped (st : Args) (tok nv : String)
    (rest : List String) (hstrip : StripDashes tok = .ok nv)
    (hlook : LookupArg st nv = (nv, none)) :
    parseLoop st (tok :: rest) =
      if st.m_currentOrderedArgIndex < st.m_orderedArgNames.length then
        parseLoop
          { st with
            m_argValues :=
              setAssoc st.m_argValues
                (st.m_orderedArgNames.getD st.m_currentOrderedArgIndex "") nv,
            m_currentOrderedArgIndex := st.m_currentOrderedArgIndex + 1 }
          rest
      else
        (.error ("couldn't find " ++ tok ++ " in specified list of arguments"), st) :=
  parseLoop_positional_step st tok nv nv rest hstrip hlook

/-- Witness for C7 amended, at the token `-xy` against `regInput`. -/
theorem C7_witness :
    parseLoop regInput ["-xy"] =
      if regInput.m_currentOrderedArgIndex < regInput.m_orderedArgNames.length then
        parseLoop
          { regInput with
            m_argValues :=
              setAssoc regInput.m_argValues
                (regInput.m_orderedArgNames.getD regInput.m_currentOrderedArgIndex "")
                "xy",
            m_currentOrderedArgIndex := regInput.m_currentOrderedArgIndex + 1 }
          []
      else
        (.error ("couldn't find -xy in specified list of arguments"), regInput) :=
  C7_positional_consumes_stripped regInput "-xy" "xy" [] rfl rfl

/-! ### Claim C9 -/

/-- C9: in a constructed registry the positional matching list is
exactly the names of the declarations whose letter is empty, in
insertion order — membership is decided solely by the letter being
empty, never by the declaration's kind — and during the scan any such
declaration can be bound by position: whenever the cursor points at
slot `k` and a token's candidate resolves to no declared name or
letter, the scan stores the candidate under the `k`-th name of that
list and advances the cursor. -/
theorem C9_positional_by_letter (decls : List Arg) (st : Args)
    (hmk : mkArgs decls = .ok st) :
    st.m_orderedArgNames =
      (decls.filter (fun a => decide (a.letter.length = 0))).map (fun a => a.name) ∧
    (∀ (tok nv : String) (rest : List String) (vs : List (String × String))
      (k : Nat),
      StripDashes tok = .ok nv → LookupArg st nv = (nv, none) →
      k < st.m_orderedArgNames.length →
      parseLoop { st with m_argValues := vs, m_currentOrderedArgIndex := k }
          (tok :: rest) =
        parseLoop
          { st with
            m_argValues := setAssoc vs (st.m_orderedArgNames.getD k "") nv,
            m_currentOrderedArgIndex := k + 1 }
          rest) := by
  constructor
  · have h := addArgs_ok_ordered decls emptyArgs st hmk
    simpa [emptyArgs] using h
  · intro tok nv rest vs k hstrip hlook hk
    have h := parseLoop_positional_step
      { st with m_argValues := vs, m_currentOrderedArgIndex := k } tok nv nv rest
      hstrip hlook
    rw [h]
    exact if_pos hk

/-- Witness for C9: the registry of a blank-letter flag, option and
positional argument puts all three names, in order, in the positional
list, and binds slot 0 on an unresolved token. -/
theorem C9_witness :
    regMixed.m_orderedArgNames = ["quiet", "level", "input"] ∧
    parseLoop { regMixed with m_argValues := [], m_currentOrderedArgIndex := 0 }
        ["foo"] =
      parseLoop
        { regMixed with
          m_argValues := setAssoc [] (regMixed.m_orderedArgNames.getD 0 "") "foo",
          m_currentOrderedArgIndex := 1 }
        [] := by
  have h := C9_positional_by_letter [quietFlagNL, levelOptNL, inputPos] regMixed rfl
  exact ⟨h.1.trans (by decide), h.2 "foo" "foo" [] [] 0 rfl rfl (by decide)⟩

/-! ### Claim C10 -/

/-- C10 counterexample: with `{ colourOpt, verboseFlag }`, the token
following `-c` is `--verbose`, which names a declared flag; the claim
says it is stored unchanged as colour's value and the scan moves on,
but the code rejects it against colour's allowed-value set and `Parse`
fails, storing nothing (and, consistently with the rest of the claim,
never setting the `verbose` flag). -/
theorem C10_counterexample :
    mkArgs [colourOpt, verboseFlag] = .ok regColourVerbose ∧
    (Parse regColourVerbose ["-c", "--verbose"]).1 =
      .error "value --verbose for argument -c isn't one of the options" ∧
    IsSet (Parse regColourVerbose ["-c", "--verbose"]).2 "colour" = false ∧
    IsSet (Parse regColourVerbose ["-c", "--verbose"]).2 "verbose" = false :=
  ⟨rfl, rfl, rfl, rfl⟩

/-- C10 amended: the token `v` that immediately follows a token
resolving to a non-flag option is always treated as that option's value
and is never itself resolved against the declared names and letters,
even if it carries dashes or spells a declared name; if it passes the
option's allowed-value check it is stored unchanged under the resolved
name and the scan resumes after both tokens, and otherwise `Parse`
fails with the allowed-value error. -/
theorem C10_value_token_opaque (st : Args) (tok nv v : String)
    (rest : List String) (a : Arg) (hstrip : StripDashes tok = .ok nv)
    (hlook : (LookupArg st nv).2 = some a) (hflag : a.isFlag = false) :
    parseLoop st (tok :: v :: rest) =
      if a.IsValidValue v then
        parseLoop
          { st with m_argValues := setAssoc st.m_argValues (LookupArg st nv).1 v }
          rest
      else
        (.error ("value " ++ v ++ " for argument " ++ tok ++
          " isn't one of the options"), st) :=
  parseLoop_value_step st tok nv v rest a hstrip hlook hflag

/-- Witness for C10 amended: the any-value option `text` consumes the
dashed token `--weird` verbatim. -/
theorem C10_witness :
    parseLoop regText ["-s", "--weird"] =
      if textOpt.IsValidValue "--weird" then
        parseLoop
          { regText with
            m_argValues := setAssoc regText.m_argValues (LookupArg regText "s").1
              "--weird" }
          []
      else
        (.error ("value --weird for argument -s isn't one of the options"), regText) :=
  C10_value_token_opaque regText "-s" "s" "--weird" [] textOpt rfl rfl rfl

/-! ### The constructor invariant behind the `hctor`/`hreq` hypotheses:
no `Arg`, `Flag` or `PositionalArg` constructor can produce a required
declaration that carries a default value, since every constructor that
sets a default hard-codes `Is::Optional`. -/

theorem optional_beq_required :
    (Ordinality.Optional == Ordinality.Required) = false := rfl

theorem ctor_required_no_default (a : Arg)
    (h : (∃ n l d o, Arg.make n l d o = .ok a) ∨
         (∃ n l d dv, Arg.makeWithDefault n l d dv = .ok a) ∨
         (∃ n l d pv dv, Arg.makeWithValuesAndDefault n l d pv dv = .ok a) ∨
         (∃ n l d pv o, Arg.makeWithValues n l d pv o = .ok a) ∨
         (∃ n d o, Arg.makePositional n d o = .ok a) ∨
         (∃ n l d, Arg.makeFlag n l d = .ok a)) :
    a.IsRequired = true → a.defaultValueSet = false := by
  intro hreq
  rcases h with ⟨n, l, d, o, h⟩ | ⟨n, l, d, dv, h⟩ | ⟨n, l, d, pv, dv, h⟩ |
    ⟨n, l, d, pv, o, h⟩ | ⟨n, d, o, h⟩ | ⟨n, l, d, h⟩
  · simp only [Arg.make] at h
    split at h
    · exact absurd h (by simp)
    · cases h; rfl
  · simp only [Arg.makeWithDefault] at h
    split at h
    · exact absurd h (by simp)
    · cases h; simp [Arg.IsRequired, optional_beq_required] at hreq
  · simp only [Arg.makeWithValuesAndDefault] at h
    split at h
    · exact absurd h (by simp)
    · split at h
      · exact absurd h (by simp)
      · cases h; simp [Arg.IsRequired, optional_beq_required] at hreq
  · simp only [Arg.makeWithValues] at h
    split at h
    · exact absurd h (by simp)
    · cases h; rfl
  · simp only [Arg.makePositional] at h
    split at h
    · exact absurd h (by simp)
    · rename_i a1 hmk
      cases h
      simp only [Arg.make] at hmk
      split at hmk
      · exact absurd hmk (by simp)
      · cases hmk; rfl
  · simp only [Arg.makeFlag] at h
    split at h
    · exact absurd h (by simp)
    · rename_i a1 hmk
      split at h
      · exact absurd h (by simp)
      · cases h
        simp only [Arg.make] at hmk
        split at hmk
        · exact absurd hmk (by simp)
        · cases hmk
          simp [Arg.IsRequired, optional_beq_required] at hreq

theorem findVal_mem {α : Type} (l : List (String × α)) (k : String) (v : α)
    (h : findVal l k = some v) : (k, v) ∈ l := by
  induction l with
  | nil => simp [findVal] at h
  | cons p rest ih =>
    obtain ⟨pk, pv⟩ := p
    by_cases hk : pk = k
    · simp only [findVal, beq_iff_eq, hk, if_pos] at h
      cases h
      simp [hk]
    · simp only [findVal, beq_iff_eq, hk, if_neg, not_false_iff] at h
      exact List.mem_cons_of_mem _ (ih h)

/-- In a constructed registry, `LookupArg` rewrites the candidate only
through `m_argLookup`, whose every value is a name present in `m_args`;
hence a candidate that resolves to nothing was never rewritten. -/
theorem LookupArg_none_no_rewrite (decls : List Arg) (st : Args) (nv : String)
    (hmk : mkArgs decls = .ok st) (h : (LookupArg st nv).2 = none) :
    LookupArg st nv = (nv, none) := by
  unfold LookupArg at h ⊢
  cases hfl : findVal st.m_argLookup nv with
  | none => simp only [hfl] at h ⊢; rw [h]
  | some full =>
    exfalso
    have hmem := findVal_mem st.m_argLookup nv full hfl
    rw [addArgs_ok_argLookup decls emptyArgs st hmk] at hmem
    simp only [emptyArgs, List.nil_append] at hmem
    rcases List.mem_map.mp hmem with ⟨a, ha, heq⟩
    have hfull : full = a.name := by
      have := congrArg Prod.snd heq
      simpa using this.symm
    have hfound := addArgs_findVal decls emptyArgs st hmk a (List.mem_filter.mp ha).1
    simp only [hfl] at h
    rw [hfull, hfound] at h
    simp at h
